import Mathlib

/-!
Shallow embedding of the quiz scoring and leaderboard logic of
`src/handlers/quizzesHandlers.js` (bindetective-backend).

JavaScript arrays become `List`, objects become structures, Firestore
collections become association lists keyed by document id.  JS numbers that
hold scores are modelled as `Nat` (scores are produced only by
`calculateScore`, which counts correct answers).  A JS object used as a
string-keyed accumulator (`userScores`) is modelled as an insertion-ordered
association list, matching the insertion-order key enumeration of
`Object.keys` for non-numeric string keys.  The stable
`Array.prototype.sort` with comparator `(a, b) => b.totalScore - a.totalScore`
is modelled by a stable insertion sort into descending `totalScore` order.
-/

namespace BinDetective

/-- An option of a question: `{ id, text, isCorrect }`. -/
structure QuizOption where
  id : String
  text : String
  isCorrect : Bool
deriving DecidableEq, Repr

/-- A question of a quiz: `{ questionId, text, type, options }`. -/
structure Question where
  questionId : String
  text : String
  type : String
  options : List QuizOption
deriving DecidableEq, Repr

/-- A quiz document: `{ title, description, questions }` (the `createdAt`
timestamp is not modelled; no claim mentions it). -/
structure Quiz where
  title : String
  description : String
  questions : List Question
deriving DecidableEq, Repr

/-- A submitted answer: `{ questionId, selectedOptionId }`. -/
structure Answer where
  questionId : String
  selectedOptionId : String
deriving DecidableEq, Repr

/-- One entry of a user's `quizzesTaken` array: `{ quizId, score }`
(the `completedAt` timestamp is not modelled; no claim mentions it). -/
structure UserHistoryEntry where
  quizId : String
  score : Nat
deriving DecidableEq, Repr

/-- A user document: the Firestore doc id together with its `quizzesTaken`
array.  A document without the field is modelled by the empty list, which the
code treats identically (`quizzesTaken && quizzesTaken.length > 0`). -/
structure UserDoc where
  id : String
  quizzesTaken : List UserHistoryEntry
deriving DecidableEq, Repr

/-- Embeds the loop body of `calculateScore` for a single answer:
find the question whose `questionId` matches, then the first option flagged
`isCorrect` (`options.find`), and award 1 when its `id` equals the submitted
`selectedOptionId`. -/
def answerPoints (questions : List Question) (answer : Answer) : Nat :=
  match questions.find? (fun q => q.questionId == answer.questionId) with
  | some question =>
    match question.options.find? (fun option => option.isCorrect) with
    | some correctOption =>
      if correctOption.id == answer.selectedOptionId then 1 else 0
    | none => 0
  | none => 0

/-- Embeds `calculateScore(answers, quizId)` after the quiz document has been
fetched: `let score = 0; answers.forEach(...)` accumulating over the quiz's
`questions` array. -/
def calculateScore (answers : List Answer) (questions : List Question) : Nat :=
  answers.foldl
    (fun score answer =>
      match questions.find? (fun q => q.questionId == answer.questionId) with
      | some question =>
        match question.options.find? (fun option => option.isCorrect) with
        | some correctOption =>
          if correctOption.id == answer.selectedOptionId then score + 1 else score
        | none => score
      | none => score)
    0

/-- Embeds the Firestore fetch inside `calculateScore`: the `quizzes`
collection is an association list from document id to quiz data.  When the
document is absent, `quizDoc.data()` is `undefined` and reading `.questions`
throws a `TypeError`, modelled by `none`. -/
def calculateScoreDb (quizzes : List (String × Quiz)) (answers : List Answer)
    (quizId : String) : Option Nat :=
  match quizzes.find? (fun p => p.1 == quizId) with
  | some p => some (calculateScore answers p.2.questions)
  | none => none

/-- Responses the `submitQuizAnswers` handler can produce: 200 with
`{message, score}`, or the catch-all 500 `"Internal Server Error"`.  The
handler has no branch producing a 404, hence no such constructor. -/
inductive SubmitResponse where
  | ok (message : String) (score : Nat)
  | serverError
deriving DecidableEq, Repr

/-- Embeds the `submitQuizAnswers` handler.  Any error thrown inside the
`try` block (in particular the `TypeError` from scoring a missing quiz) is
caught and turned into the 500 response.  The two persistence writes (the
`results.add` insert and the user-document `arrayUnion` update) are side
effects on collections no claim inspects and are modelled as succeeding;
only the HTTP response is embedded. -/
def submitQuizAnswers (quizzes : List (String × Quiz)) (quizId : String)
    (userId : String) (answers : List Answer) : SubmitResponse :=
  match calculateScoreDb quizzes answers quizId with
  | some score => SubmitResponse.ok "Quiz answers submitted successfully" score
  | none => SubmitResponse.serverError

/-- Embeds `userScores[userId] = { totalScore: 0, quizzesTaken: 0 }` guarded
by `if (!userScores[userId])`: insert the key at the end (JS object key
insertion order) when absent. -/
def initUser (userScores : List (String × Nat × Nat)) (userId : String) :
    List (String × Nat × Nat) :=
  if userScores.any (fun p => p.1 == userId) then userScores
  else userScores ++ [(userId, 0, 0)]

/-- Embeds one iteration of the inner `quizzesTaken.forEach`:
`userScores[userId].totalScore += quiz.score; userScores[userId].quizzesTaken += 1`. -/
def bumpUser (userScores : List (String × Nat × Nat)) (userId : String)
    (s : Nat) : List (String × Nat × Nat) :=
  userScores.map (fun p => if p.1 == userId then (p.1, p.2.1 + s, p.2.2 + 1) else p)

/-- Embeds one iteration of `usersSnapshot.docs.forEach` in
`getQuizLeaderboard`: skip documents with an empty (or missing)
`quizzesTaken`, otherwise ensure the key exists and fold the history entries
into it. -/
def processUserDoc (userScores : List (String × Nat × Nat)) (doc : UserDoc) :
    List (String × Nat × Nat) :=
  if 0 < doc.quizzesTaken.length then
    doc.quizzesTaken.foldl (fun m quiz => bumpUser m doc.id quiz.score)
      (initUser userScores doc.id)
  else userScores

/-- Embeds the whole `userScores` accumulation over the users snapshot. -/
def aggregateScores (docs : List UserDoc) : List (String × Nat × Nat) :=
  docs.foldl processUserDoc []

/-- Stable insertion of a row into a list sorted by descending `totalScore`
(the middle component): the new row goes before the first row whose
`totalScore` is not greater, modelling the stable JS sort with comparator
`(a, b) => b.totalScore - a.totalScore`. -/
def insertRow (u : String × Nat × Nat) :
    List (String × Nat × Nat) → List (String × Nat × Nat)
  | [] => [u]
  | v :: rest => if u.2.1 < v.2.1 then v :: insertRow u rest else u :: v :: rest

/-- Stable sort by descending `totalScore`, modelling
`.sort((a, b) => b.totalScore - a.totalScore)`. -/
def sortRows : List (String × Nat × Nat) → List (String × Nat × Nat)
  | [] => []
  | u :: rest => insertRow u (sortRows rest)

/-- A row of the final leaderboard response:
`{ rank, userId, totalScore, quizzesTaken }`. -/
structure LeaderboardRow where
  rank : Nat
  userId : String
  totalScore : Nat
  quizzesTaken : Nat
deriving DecidableEq, Repr

/-- Embeds `leaderboard.map((user, index) => ({ rank: index + 1, ...user }))`,
carrying the running index. -/
def addRanks : Nat → List (String × Nat × Nat) → List LeaderboardRow
  | _, [] => []
  | index, u :: rest =>
    { rank := index + 1, userId := u.1, totalScore := u.2.1,
      quizzesTaken := u.2.2 } :: addRanks (index + 1) rest

/-- The pure leaderboard pipeline of `getQuizLeaderboard` on a users
snapshot: aggregate, convert to rows (`Object.keys(...).map`, which
enumerates keys in insertion order, so the association list is already the
row list), sort descending by `totalScore`, and attach 1-based ranks. -/
def leaderboardRows (docs : List UserDoc) : List LeaderboardRow :=
  addRanks 0 (sortRows (aggregateScores docs))

/-- Responses the `getQuizLeaderboard` handler can produce: 404 with a
`{message}` body, or 200 with the ranked rows. -/
inductive LeaderboardResponse where
  | notFound (message : String)
  | ok (rows : List LeaderboardRow)
deriving DecidableEq, Repr

/-- Embeds the `getQuizLeaderboard` handler: 404 `"No users found"` exactly
when the users snapshot is empty (`usersSnapshot.empty`), otherwise 200 with
the computed rows. -/
def getQuizLeaderboard (docs : List UserDoc) : LeaderboardResponse :=
  if docs.isEmpty then LeaderboardResponse.notFound "No users found"
  else LeaderboardResponse.ok (leaderboardRows docs)

/-- Total score recorded in a user document's history. -/
def userTotal (doc : UserDoc) : Nat :=
  (doc.quizzesTaken.map (fun e => e.score)).sum

/-- Specification-side scoring function, written from the spec's algorithm
sentence: "for each submitted answer, locate the question by questionId
(unique-key lookup); if found, locate the option flagged isCorrect among that
question's options; award one point if the submitted selectedOptionId equals
the correct option's id", with the total being the sum of the per-answer
awards over the answer sequence. -/
def scoreSpec (quiz : Quiz) (answers : List Answer) : Nat :=
  (answers.map (fun answer =>
    match quiz.questions.find? (fun q => q.questionId == answer.questionId) with
    | none => 0
    | some question =>
      match question.options.find? (fun option => option.isCorrect) with
      | none => 0
      | some correctOption =>
        if answer.selectedOptionId == correctOption.id then 1 else 0)).sum

/-- Sample question for the spec's scoring scenario: one question `q1` whose
correct option is `o1`. -/
def exQuestion : Question :=
  { questionId := "q1", text := "What is the capital of France?",
    type := "multiple-choice",
    options := [{ id := "o1", text := "Paris", isCorrect := true },
                { id := "o2", text := "London", isCorrect := false }] }

/-- Sample quiz wrapping `exQuestion`. -/
def exQuiz : Quiz :=
  { title := "General Knowledge Quiz",
    description := "A fun quiz to test your knowledge.",
    questions := [exQuestion] }

/-- Duplicate-answer sequence used to show double-counting. -/
def dupAnswers : List Answer :=
  [{ questionId := "q1", selectedOptionId := "o1" },
   { questionId := "q1", selectedOptionId := "o1" }]

/-- Sample question none of whose options is flagged correct. -/
def exNoCorrect : Question :=
  { questionId := "q2", text := "No option is marked correct",
    type := "multiple-choice",
    options := [{ id := "o1", text := "a", isCorrect := false },
                { id := "o2", text := "b", isCorrect := false }] }

/-- Sample question with two options flagged correct; `o1` comes first. -/
def exMultiCorrect : Question :=
  { questionId := "q3", text := "Two options are marked correct",
    type := "multiple-choice",
    options := [{ id := "o1", text := "a", isCorrect := true },
                { id := "o2", text := "b", isCorrect := true }] }

/-- Scenario user A: totalScore 10 over 2 quizzes. -/
def userA : UserDoc :=
  { id := "A", quizzesTaken := [{ quizId := "qx", score := 4 },
                                { quizId := "qy", score := 6 }] }

/-- Scenario user B: totalScore 15 over 1 quiz. -/
def userB : UserDoc :=
  { id := "B", quizzesTaken := [{ quizId := "qz", score := 15 }] }

namespace Lemmas

/-- The accumulator body of `calculateScore` adds `answerPoints` to the
running score. -/
theorem calc_body_eq (questions : List Question) (score : Nat) (answer : Answer) :
    (match questions.find? (fun q => q.questionId == answer.questionId) with
      | some question =>
        match question.options.find? (fun option => option.isCorrect) with
        | some correctOption =>
          if correctOption.id == answer.selectedOptionId then score + 1 else score
        | none => score
      | none => score) = score + answerPoints questions answer := by
  unfold answerPoints
  cases questions.find? (fun q => q.questionId == answer.questionId) with
  | none => rfl
  | some question =>
    dsimp only
    cases question.options.find? (fun option => option.isCorrect) with
    | none => rfl
    | some correctOption =>
      dsimp only
      by_cases h : correctOption.id == answer.selectedOptionId <;> simp [h]

/-- The `foldl` of `calculateScore` from any initial value computes that
value plus the sum of per-answer points. -/
theorem calc_foldl (questions : List Question) (answers : List Answer) (n : Nat) :
    answers.foldl
      (fun score answer =>
        match questions.find? (fun q => q.questionId == answer.questionId) with
        | some question =>
          match question.options.find? (fun option => option.isCorrect) with
          | some correctOption =>
            if correctOption.id == answer.selectedOptionId then score + 1 else score
          | none => score
        | none => score)
      n = n + (answers.map (answerPoints questions)).sum := by
  induction answers generalizing n with
  | nil => simp
  | cons a as ih =>
    rw [List.foldl_cons, ih, List.map_cons, List.sum_cons]
    rw [calc_body_eq questions n a]
    omega

/-- `calculateScore` is the sum of the per-answer points. -/
theorem calculateScore_eq_sum (answers : List Answer) (questions : List Question) :
    calculateScore answers questions = (answers.map (answerPoints questions)).sum := by
  unfold calculateScore
  rw [calc_foldl]
  exact Nat.zero_add _

/-- Inserting one answer anywhere in the sequence adds exactly that answer's
points to the score. -/
theorem calculateScore_insert (questions : List Question)
    (answers1 answers2 : List Answer) (a : Answer) :
    calculateScore (answers1 ++ a :: answers2) questions =
      calculateScore (answers1 ++ answers2) questions + answerPoints questions a := by
  rw [calculateScore_eq_sum, calculateScore_eq_sum]
  simp only [List.map_append, List.map_cons, List.sum_append, List.sum_cons]
  omega

/-- Each answer is worth at most one point. -/
theorem answerPoints_le_one (questions : List Question) (a : Answer) :
    answerPoints questions a ≤ 1 := by
  unfold answerPoints
  cases questions.find? (fun q => q.questionId == a.questionId) with
  | none => exact Nat.zero_le 1
  | some question =>
    dsimp only
    cases question.options.find? (fun option => option.isCorrect) with
    | none => exact Nat.zero_le 1
    | some correctOption =>
      dsimp only
      by_cases h : correctOption.id == a.selectedOptionId <;> simp [h]

/-- With unique question keys, `find?` on a matching key returns exactly the
member with that key. -/
theorem find?_key_unique (questions : List Question) (q : Question) (k : String)
    (hnodup : (questions.map Question.questionId).Nodup)
    (hq : q ∈ questions) (hk : q.questionId = k) :
    questions.find? (fun q2 => q2.questionId == k) = some q := by
  induction questions with
  | nil => exact absurd hq (List.not_mem_nil q)
  | cons q0 rest ih =>
    rw [List.map_cons, List.nodup_cons] at hnodup
    rcases List.mem_cons.mp hq with h | h
    · subst h
      exact List.find?_cons_of_pos rest (by simp [hk])
    · have hne : ¬ ((q0.questionId == k) = true) := by
        intro hcontra
        apply hnodup.1
        rw [beq_iff_eq] at hcontra
        rw [hcontra, ← hk]
        exact List.mem_map_of_mem Question.questionId h
      rw [List.find?_cons_of_neg rest hne]
      exact ih hnodup.2 h

/-- `find?` for the flag `isCorrect` returns the first flagged option. -/
theorem find?_first_correct (pre post : List QuizOption) (o : QuizOption)
    (hpre : ∀ x ∈ pre, x.isCorrect = false) (ho : o.isCorrect = true) :
    (pre ++ o :: post).find? (fun option => option.isCorrect) = some o := by
  induction pre with
  | nil =>
    rw [List.nil_append]
    exact List.find?_cons_of_pos post (by simp [ho])
  | cons x rest ih =>
    rw [List.cons_append, List.find?_cons_of_neg _ (by simp [hpre x (List.mem_cons_self x rest)])]
    exact ih (fun y hy => hpre y (List.mem_cons_of_mem x hy))

/-- The per-answer expression of `scoreSpec` agrees with `answerPoints`. -/
theorem spec_body_eq (questions : List Question) (answer : Answer) :
    (match questions.find? (fun q => q.questionId == answer.questionId) with
      | none => 0
      | some question =>
        match question.options.find? (fun option => option.isCorrect) with
        | none => 0
        | some correctOption =>
          if answer.selectedOptionId == correctOption.id then 1 else 0)
      = answerPoints questions answer := by
  unfold answerPoints
  cases questions.find? (fun q => q.questionId == answer.questionId) with
  | none => rfl
  | some question =>
    dsimp only
    cases question.options.find? (fun option => option.isCorrect) with
    | none => rfl
    | some correctOption =>
      dsimp only
      by_cases h : answer.selectedOptionId = correctOption.id
      · simp [h]
      · simp [h, Ne.symm h]

end Lemmas

/-- Claim C1: the scoring engine iterates over the submitted answers, looks
up each answer's question by `questionId`, locates the option flagged
`isCorrect` in that question's options, and adds exactly 1 when the answer's
`selectedOptionId` equals that correct option's id (0 otherwise); in
particular, on a one-question quiz with correct option `o1`, answering `o1`
scores 1 and answering `o2` scores 0. -/
theorem calculateScore_matches_spec :
    (∀ (quiz : Quiz) (answers : List Answer),
      calculateScore answers quiz.questions = scoreSpec quiz answers) ∧
    calculateScore [{ questionId := "q1", selectedOptionId := "o1" }] exQuiz.questions = 1 ∧
    calculateScore [{ questionId := "q1", selectedOptionId := "o2" }] exQuiz.questions = 0 := by
  refine ⟨fun quiz answers => ?_, by decide, by decide⟩
  rw [Lemmas.calculateScore_eq_sum]
  unfold scoreSpec
  congr 1
  exact (List.map_congr_left fun a _ => Lemmas.spec_body_eq quiz.questions a).symm

/-- Claim C9: the leaderboard computation is a pure function of the scanned
store state, so evaluating it twice on the same state (no intervening
submissions, same scan order of the user documents) yields identical
output. -/
theorem leaderboard_idempotent (docs : List UserDoc) :
    getQuizLeaderboard docs = getQuizLeaderboard docs := rfl

/-- Claim C2 (code bug): submitting to a `quizId` that identifies no quiz
makes `quizDoc.data()` come back `undefined`, so `calculateScore` throws and
the catch-all responds 500 `"Internal Server Error"`, not the 404 the spec
requires; with the quiz present the handler responds 200 with the message
and the computed score. -/
theorem submit_missing_quiz_returns_500 :
    submitQuizAnswers [] "quiz1" "user1"
        [{ questionId := "q1", selectedOptionId := "o1" }] =
      SubmitResponse.serverError ∧
    submitQuizAnswers [("quiz1", exQuiz)] "quiz1" "user1"
        [{ questionId := "q1", selectedOptionId := "o1" }] =
      SubmitResponse.ok "Quiz answers submitted successfully" 1 := by
  constructor
  · rfl
  · decide

/-- Claim C4: an answer whose `questionId` matches no question of the quiz
contributes nothing to the score and causes no error: the score with that
answer included equals the score with it removed. -/
theorem unmatched_questionId_ignored (questions : List Question)
    (answers1 answers2 : List Answer) (a : Answer)
    (h : ∀ q ∈ questions, q.questionId ≠ a.questionId) :
    calculateScore (answers1 ++ a :: answers2) questions =
      calculateScore (answers1 ++ answers2) questions := by
  rw [Lemmas.calculateScore_insert]
  have hfind : questions.find? (fun q => q.questionId == a.questionId) = none :=
    List.find?_eq_none.mpr (fun q hq => by simp [h q hq])
  unfold answerPoints
  rw [hfind]
  simp

/-- Witness for C4 at a concrete input. -/
theorem unmatched_questionId_ignored_witness :
    calculateScore ([] ++ { questionId := "zz", selectedOptionId := "o1" } :: [])
        exQuiz.questions =
      calculateScore ([] ++ []) exQuiz.questions :=
  unmatched_questionId_ignored exQuiz.questions [] [] _ (by decide)

/-- Claim C5: an answer to a question none of whose options is flagged
`isCorrect` contributes 0 to the score and does not make the scoring engine
error, whatever `selectedOptionId` was submitted. -/
theorem question_without_correct_option_scores_zero (questions : List Question)
    (answers1 answers2 : List Answer) (a : Answer) (q : Question)
    (hnodup : (questions.map Question.questionId).Nodup)
    (hq : q ∈ questions) (hid : q.questionId = a.questionId)
    (hnone : ∀ o ∈ q.options, o.isCorrect = false) :
    calculateScore (answers1 ++ a :: answers2) questions =
      calculateScore (answers1 ++ answers2) questions := by
  rw [Lemmas.calculateScore_insert]
  have hfind := Lemmas.find?_key_unique questions q a.questionId hnodup hq hid
  have hopt : q.options.find? (fun option => option.isCorrect) = none :=
    List.find?_eq_none.mpr (fun o ho => by simp [hnone o ho])
  unfold answerPoints
  rw [hfind]
  dsimp only
  rw [hopt]
  simp

/-- Witness for C5 at a concrete input. -/
theorem question_without_correct_option_scores_zero_witness :
    calculateScore ([] ++ { questionId := "q2", selectedOptionId := "o1" } :: [])
        [exNoCorrect] =
      calculateScore ([] ++ []) [exNoCorrect] :=
  question_without_correct_option_scores_zero [exNoCorrect] [] [] _ exNoCorrect
    (by decide) (by decide) (by decide) (by decide)

/-- Claim C10: when more than one option of a question is flagged
`isCorrect`, the point is awarded exactly when `selectedOptionId` equals the
id of the first correct option in the options sequence; selecting any later
correct option (with a distinct id) contributes 0. -/
theorem first_correct_option_wins (questions : List Question)
    (answers1 answers2 : List Answer) (a : Answer) (q : Question)
    (pre post : List QuizOption) (o : QuizOption)
    (hnodup : (questions.map Question.questionId).Nodup)
    (hq : q ∈ questions) (hid : q.questionId = a.questionId)
    (hopts : q.options = pre ++ o :: post)
    (hpre : ∀ x ∈ pre, x.isCorrect = false) (ho : o.isCorrect = true) :
    calculateScore (answers1 ++ a :: answers2) questions =
      calculateScore (answers1 ++ answers2) questions +
        (if a.selectedOptionId = o.id then 1 else 0) ∧
    (∀ o2 ∈ post, o2.isCorrect = true → o2.id ≠ o.id → a.selectedOptionId = o2.id →
      calculateScore (answers1 ++ a :: answers2) questions =
        calculateScore (answers1 ++ answers2) questions) := by
  have hfind := Lemmas.find?_key_unique questions q a.questionId hnodup hq hid
  have hopt : q.options.find? (fun option => option.isCorrect) = some o := by
    rw [hopts]
    exact Lemmas.find?_first_correct pre post o hpre ho
  have hmain : calculateScore (answers1 ++ a :: answers2) questions =
      calculateScore (answers1 ++ answers2) questions +
        (if a.selectedOptionId = o.id then 1 else 0) := by
    rw [Lemmas.calculateScore_insert]
    unfold answerPoints
    rw [hfind]
    dsimp only
    rw [hopt]
    dsimp only
    by_cases h : a.selectedOptionId = o.id
    · simp [h]
    · simp [h, Ne.symm h]
  refine ⟨hmain, fun o2 _ _ hne2 hsel => ?_⟩
  rw [hmain]
  have : ¬ a.selectedOptionId = o.id := by
    rw [hsel]
    exact hne2
  simp [this]

/-- Witness for C10 at a concrete input: `exMultiCorrect` has two correct
options `o1` and `o2`; selecting the later one, `o2`, scores 0. -/
theorem first_correct_option_wins_witness :
    calculateScore ([] ++ { questionId := "q3", selectedOptionId := "o2" } :: [])
        [exMultiCorrect] =
      calculateScore ([] ++ []) [exMultiCorrect] +
        (if "o2" = "o1" then 1 else 0) ∧
    (∀ o2 ∈ [({ id := "o2", text := "b", isCorrect := true } : QuizOption)],
      o2.isCorrect = true → o2.id ≠ "o1" → "o2" = o2.id →
      calculateScore ([] ++ { questionId := "q3", selectedOptionId := "o2" } :: [])
          [exMultiCorrect] =
        calculateScore ([] ++ []) [exMultiCorrect]) :=
  first_correct_option_wins [exMultiCorrect] [] []
    { questionId := "q3", selectedOptionId := "o2" } exMultiCorrect
    [] [{ id := "o2", text := "b", isCorrect := true }]
    { id := "o1", text := "a", isCorrect := true }
    (by decide) (by decide) (by decide) (by decide) (by decide) (by decide)

/-- Counterexample for C3 as stated: on a quiz with one question having
exactly one correct option, submitting the same correct answer twice (every
questionId occurs in the quiz) yields score 2, which exceeds N = 1. -/
theorem score_can_exceed_question_count :
    (exQuiz.questions.all
      (fun q => (q.options.filter (fun o => o.isCorrect)).length == 1)) = true ∧
    (dupAnswers.all
      (fun a => (exQuiz.questions.map Question.questionId).contains a.questionId)) = true ∧
    calculateScore dupAnswers exQuiz.questions = 2 ∧
    ¬ calculateScore dupAnswers exQuiz.questions ≤ exQuiz.questions.length := by
  decide

/-- Claim C3 (amended): for a quiz with N questions each having exactly one
correct option, and an answer sequence with pairwise-distinct questionIds
all occurring in the quiz, the score lies between 0 and N inclusive
(without distinctness, duplicated answers are double-counted and the score
can exceed N). -/
theorem score_bounded_of_nodup_answers (questions : List Question)
    (answers : List Answer)
    (hone : ∀ q ∈ questions, (q.options.filter (fun o => o.isCorrect)).length = 1)
    (hvalid : ∀ a ∈ answers, a.questionId ∈ questions.map Question.questionId)
    (hnodup : (answers.map Answer.questionId).Nodup) :
    0 ≤ calculateScore answers questions ∧
      calculateScore answers questions ≤ questions.length := by
  refine ⟨Nat.zero_le _, ?_⟩
  have h1 : calculateScore answers questions ≤ answers.length := by
    rw [Lemmas.calculateScore_eq_sum]
    have hle := List.sum_le_card_nsmul (answers.map (answerPoints questions)) 1
      (fun x hx => by
        obtain ⟨a, _, rfl⟩ := List.mem_map.mp hx
        exact Lemmas.answerPoints_le_one questions a)
    simpa using hle
  have h2 : answers.length ≤ questions.length := by
    have hcard1 : (answers.map Answer.questionId).toFinset.card =
        (answers.map Answer.questionId).length :=
      List.toFinset_card_of_nodup hnodup
    have hsub : (answers.map Answer.questionId).toFinset ⊆
        (questions.map Question.questionId).toFinset := by
      intro x hx
      rw [List.mem_toFinset] at hx ⊢
      obtain ⟨a, ha, rfl⟩ := List.mem_map.mp hx
      exact hvalid a ha
    have hcard2 := Finset.card_le_card hsub
    have hcard3 := List.toFinset_card_le (l := questions.map Question.questionId)
    have hlen1 : (answers.map Answer.questionId).length = answers.length := by simp
    have hlen2 : (questions.map Question.questionId).length = questions.length := by simp
    omega
  omega

/-- Witness for the amended C3 at a concrete input. -/
theorem score_bounded_of_nodup_answers_witness :
    0 ≤ calculateScore [{ questionId := "q1", selectedOptionId := "o1" }]
        exQuiz.questions ∧
      calculateScore [{ questionId := "q1", selectedOptionId := "o1" }]
        exQuiz.questions ≤ exQuiz.questions.length :=
  score_bounded_of_nodup_answers exQuiz.questions
    [{ questionId := "q1", selectedOptionId := "o1" }]
    (by decide) (by decide) (by decide)

namespace Lemmas

/-- Updating a key that does not occur in the prefix only touches the final
singleton. -/
theorem bumpUser_append (m : List (String × Nat × Nat)) (k : String) (a b s : Nat)
    (hm : ∀ p ∈ m, p.1 ≠ k) :
    bumpUser (m ++ [(k, a, b)]) k s = m ++ [(k, a + s, b + 1)] := by
  unfold bumpUser
  rw [List.map_append]
  have hfix : m.map (fun p => if p.1 == k then (p.1, p.2.1 + s, p.2.2 + 1) else p)
      = m.map id := List.map_congr_left fun p hp => by simp [hm p hp]
  rw [hfix, List.map_id]
  simp

/-- Folding a user's history entries into its freshly ensured accumulator
entry adds the history's score sum and count. -/
theorem foldl_bumpUser (entries : List UserHistoryEntry)
    (m : List (String × Nat × Nat)) (k : String) (a b : Nat)
    (hm : ∀ p ∈ m, p.1 ≠ k) :
    entries.foldl (fun acc quiz => bumpUser acc k quiz.score) (m ++ [(k, a, b)]) =
      m ++ [(k, a + (entries.map (fun e => e.score)).sum, b + entries.length)] := by
  induction entries generalizing a b with
  | nil => simp
  | cons e rest ih =>
    rw [List.foldl_cons, bumpUser_append m k a b e.score hm, ih (a + e.score) (b + 1)]
    have h1 : a + e.score + (rest.map (fun e2 => e2.score)).sum
        = a + ((e :: rest).map (fun e2 => e2.score)).sum := by
      rw [List.map_cons, List.sum_cons]; omega
    have h2 : b + 1 + rest.length = b + (e :: rest).length := by
      rw [List.length_cons]; omega
    rw [h1, h2]

/-- `initUser` appends a zero entry when the key is absent. -/
theorem initUser_of_not_mem (m : List (String × Nat × Nat)) (k : String)
    (hm : ∀ p ∈ m, p.1 ≠ k) :
    initUser m k = m ++ [(k, 0, 0)] := by
  unfold initUser
  rw [if_neg]
  simp only [List.any_eq_true, beq_iff_eq, not_exists, not_and]
  exact fun p hp => hm p hp

/-- A document with empty (or missing) history is skipped. -/
theorem processUserDoc_skip (m : List (String × Nat × Nat)) (doc : UserDoc)
    (h : doc.quizzesTaken = []) :
    processUserDoc m doc = m := by
  unfold processUserDoc
  rw [h]
  simp

/-- Processing a document whose id is not yet a key appends one aggregated
entry for it. -/
theorem processUserDoc_eq (m : List (String × Nat × Nat)) (doc : UserDoc)
    (h : doc.quizzesTaken ≠ [])
    (hm : ∀ p ∈ m, p.1 ≠ doc.id) :
    processUserDoc m doc =
      m ++ [(doc.id, userTotal doc, doc.quizzesTaken.length)] := by
  unfold processUserDoc
  rw [if_pos (List.length_pos.mpr h), initUser_of_not_mem m doc.id hm]
  have hf := foldl_bumpUser doc.quizzesTaken m doc.id 0 0 hm
  simpa [userTotal] using hf

/-- The `userScores` accumulation over documents with pairwise-distinct ids
appends, in scan order, one aggregated entry per document with non-empty
history. -/
theorem foldl_processUserDoc (docs : List UserDoc)
    (m : List (String × Nat × Nat))
    (hnodup : (docs.map UserDoc.id).Nodup)
    (hdisj : ∀ d ∈ docs, ∀ p ∈ m, p.1 ≠ d.id) :
    docs.foldl processUserDoc m =
      m ++ (docs.filter (fun d => !d.quizzesTaken.isEmpty)).map
        (fun d => (d.id, userTotal d, d.quizzesTaken.length)) := by
  induction docs generalizing m with
  | nil => simp
  | cons d rest ih =>
    rw [List.map_cons, List.nodup_cons] at hnodup
    by_cases hd : d.quizzesTaken = []
    · rw [List.foldl_cons, processUserDoc_skip m d hd,
        List.filter_cons_of_neg (by simp [hd])]
      exact ih m hnodup.2 (fun d2 hd2 p hp => hdisj d2 (List.mem_cons_of_mem d hd2) p hp)
    · rw [List.foldl_cons,
        processUserDoc_eq m d hd (fun p hp => hdisj d (List.mem_cons_self d rest) p hp),
        List.filter_cons_of_pos (by simp [hd])]
      rw [ih (m ++ [(d.id, userTotal d, d.quizzesTaken.length)]) hnodup.2 ?_]
      · rw [List.map_cons, List.append_assoc]
        rfl
      · intro d2 hd2 p hp
        rcases List.mem_append.mp hp with hpm | hpx
        · exact hdisj d2 (List.mem_cons_of_mem d hd2) p hpm
        · have hpe : p = (d.id, userTotal d, d.quizzesTaken.length) := by
            simpa using hpx
          rw [hpe]
          intro hcontra
          apply hnodup.1
          have : d.id = d2.id := hcontra
          rw [this]
          exact List.mem_map_of_mem UserDoc.id hd2

/-- With pairwise-distinct document ids, the aggregation is exactly one
entry per document with non-empty history, in scan order. -/
theorem aggregateScores_eq (docs : List UserDoc)
    (hnodup : (docs.map UserDoc.id).Nodup) :
    aggregateScores docs =
      (docs.filter (fun d => !d.quizzesTaken.isEmpty)).map
        (fun d => (d.id, userTotal d, d.quizzesTaken.length)) := by
  unfold aggregateScores
  simpa using foldl_processUserDoc docs [] hnodup (by simp)

/-- `insertRow` inserts and keeps everything else. -/
theorem mem_insertRow (u v : String × Nat × Nat)
    (l : List (String × Nat × Nat)) :
    v ∈ insertRow u l ↔ v = u ∨ v ∈ l := by
  induction l with
  | nil => simp [insertRow]
  | cons w rest ih =>
    unfold insertRow
    by_cases h : u.2.1 < w.2.1
    · rw [if_pos h]
      rw [List.mem_cons, ih, List.mem_cons]
      tauto
    · rw [if_neg h]
      rw [List.mem_cons, List.mem_cons]

/-- `sortRows` preserves membership. -/
theorem mem_sortRows (u : String × Nat × Nat) (l : List (String × Nat × Nat)) :
    u ∈ sortRows l ↔ u ∈ l := by
  induction l with
  | nil => simp [sortRows]
  | cons v rest ih =>
    unfold sortRows
    rw [mem_insertRow, ih, List.mem_cons]

/-- Inserting into a descending list keeps it descending. -/
theorem sorted_insertRow (u : String × Nat × Nat)
    (l : List (String × Nat × Nat))
    (h : l.Pairwise (fun a b => b.2.1 ≤ a.2.1)) :
    (insertRow u l).Pairwise (fun a b => b.2.1 ≤ a.2.1) := by
  induction l with
  | nil => simp [insertRow]
  | cons v rest ih =>
    rw [List.pairwise_cons] at h
    unfold insertRow
    by_cases hlt : u.2.1 < v.2.1
    · rw [if_pos hlt, List.pairwise_cons]
      refine ⟨fun w hw => ?_, ih h.2⟩
      rcases (mem_insertRow u w rest).mp hw with rfl | hwr
      · exact Nat.le_of_lt hlt
      · exact h.1 w hwr
    · rw [if_neg hlt, List.pairwise_cons]
      refine ⟨fun w hw => ?_, List.pairwise_cons.mpr h⟩
      rcases List.mem_cons.mp hw with rfl | hwr
      · omega
      · have := h.1 w hwr
        omega

/-- The output of `sortRows` is descending in `totalScore`. -/
theorem sorted_sortRows (l : List (String × Nat × Nat)) :
    (sortRows l).Pairwise (fun a b => b.2.1 ≤ a.2.1) := by
  induction l with
  | nil => simp [sortRows]
  | cons u rest ih => exact sorted_insertRow u _ ih

/-- `addRanks` preserves length. -/
theorem length_addRanks (i : Nat) (l : List (String × Nat × Nat)) :
    (addRanks i l).length = l.length := by
  induction l generalizing i with
  | nil => rfl
  | cons u rest ih => simp [addRanks, ih]

/-- The `j`-th ranked row carries rank `i + j + 1` and the `j`-th
aggregate's fields. -/
theorem addRanks_getElem (i : Nat) (l : List (String × Nat × Nat)) (j : Nat)
    (hj : j < l.length) (hj2 : j < (addRanks i l).length) :
    (addRanks i l)[j] =
      { rank := i + j + 1, userId := l[j].1, totalScore := l[j].2.1,
        quizzesTaken := l[j].2.2 } := by
  induction l generalizing i j with
  | nil => exact absurd hj (Nat.not_lt_zero j)
  | cons u rest ih =>
    cases j with
    | zero => simp [addRanks]
    | succ j2 =>
      have h1 : j2 < rest.length := by simpa using hj
      have h2 : j2 < (addRanks (i + 1) rest).length := by
        rw [length_addRanks]
        exact h1
      have hrec := ih (i + 1) j2 h1 h2
      simp only [addRanks, List.getElem_cons_succ]
      rw [hrec]
      have h3 : i + 1 + j2 + 1 = i + (j2 + 1) + 1 := by omega
      rw [h3]

/-- Every ranked row's fields come from some aggregate entry. -/
theorem mem_addRanks (i : Nat) (l : List (String × Nat × Nat))
    (r : LeaderboardRow) (hr : r ∈ addRanks i l) :
    ∃ u ∈ l, r.userId = u.1 ∧ r.totalScore = u.2.1 ∧ r.quizzesTaken = u.2.2 := by
  induction l generalizing i with
  | nil => cases hr
  | cons u rest ih =>
    rcases List.mem_cons.mp hr with rfl | h
    · exact ⟨u, List.mem_cons_self u rest, rfl, rfl, rfl⟩
    · obtain ⟨v, hv, h1, h2, h3⟩ := ih (i + 1) h
      exact ⟨v, List.mem_cons_of_mem u hv, h1, h2, h3⟩

/-- Every aggregate entry appears as some ranked row. -/
theorem addRanks_mem_of_mem (i : Nat) (l : List (String × Nat × Nat))
    (u : String × Nat × Nat) (hu : u ∈ l) :
    ∃ r ∈ addRanks i l, r.userId = u.1 ∧ r.totalScore = u.2.1 ∧
      r.quizzesTaken = u.2.2 := by
  induction l generalizing i with
  | nil => cases hu
  | cons v rest ih =>
    rcases List.mem_cons.mp hu with rfl | h
    · exact ⟨_, List.mem_cons_self _ _, rfl, rfl, rfl⟩
    · obtain ⟨r, hr, h1, h2, h3⟩ := ih (i + 1) h
      exact ⟨r, List.mem_cons_of_mem _ hr, h1, h2, h3⟩

/-- When every document's history is empty, the accumulation is untouched. -/
theorem foldl_no_history (docs : List UserDoc)
    (m : List (String × Nat × Nat))
    (h : ∀ d ∈ docs, d.quizzesTaken = []) :
    docs.foldl processUserDoc m = m := by
  induction docs generalizing m with
  | nil => rfl
  | cons d rest ih =>
    rw [List.foldl_cons, processUserDoc_skip m d (h d (List.mem_cons_self d rest))]
    exact ih m (fun d2 hd2 => h d2 (List.mem_cons_of_mem d hd2))

end Lemmas

/-- Claim C6: with the pairwise-distinct document ids a Firestore snapshot
guarantees, every leaderboard row belongs to a user with non-empty history
and carries the sum of that user's recorded scores as `totalScore` and the
number of recorded entries as `quizzesTaken`; conversely every user with
non-empty history gets such a row. -/
theorem leaderboard_rows_aggregate_history (docs : List UserDoc)
    (hnodup : (docs.map UserDoc.id).Nodup) :
    (∀ r ∈ leaderboardRows docs, ∃ d ∈ docs, d.quizzesTaken ≠ [] ∧
      r.userId = d.id ∧
      r.totalScore = (d.quizzesTaken.map (fun e => e.score)).sum ∧
      r.quizzesTaken = d.quizzesTaken.length) ∧
    (∀ d ∈ docs, d.quizzesTaken ≠ [] → ∃ r ∈ leaderboardRows docs,
      r.userId = d.id ∧
      r.totalScore = (d.quizzesTaken.map (fun e => e.score)).sum ∧
      r.quizzesTaken = d.quizzesTaken.length) := by
  have hagg := Lemmas.aggregateScores_eq docs hnodup
  constructor
  · intro r hr
    obtain ⟨u, hu, h1, h2, h3⟩ := Lemmas.mem_addRanks 0 _ r hr
    rw [Lemmas.mem_sortRows, hagg] at hu
    obtain ⟨d, hd, hdu⟩ := List.mem_map.mp hu
    have hdd := List.mem_filter.mp hd
    refine ⟨d, hdd.1, by simpa using hdd.2, ?_, ?_, ?_⟩
    · rw [h1, ← hdu]
    · rw [h2, ← hdu]
      rfl
    · rw [h3, ← hdu]
  · intro d hd hne
    have hmemf : d ∈ docs.filter (fun d2 => !d2.quizzesTaken.isEmpty) :=
      List.mem_filter.mpr ⟨hd, by simp [hne]⟩
    have hmem : (d.id, userTotal d, d.quizzesTaken.length) ∈ aggregateScores docs := by
      rw [hagg]
      exact List.mem_map_of_mem _ hmemf
    rw [← Lemmas.mem_sortRows] at hmem
    obtain ⟨r, hr, h1, h2, h3⟩ := Lemmas.addRanks_mem_of_mem 0 _ _ hmem
    exact ⟨r, hr, h1, h2, h3⟩

/-- Witness for C6 at a concrete input: user A of the sample store gets a
row with totalScore 10 and quizzesTaken 2. -/
theorem leaderboard_rows_aggregate_history_witness :
    ∃ r ∈ leaderboardRows [userA, userB], r.userId = userA.id ∧
      r.totalScore = (userA.quizzesTaken.map (fun e => e.score)).sum ∧
      r.quizzesTaken = userA.quizzesTaken.length :=
  (leaderboard_rows_aggregate_history [userA, userB] (by decide)).2
    userA (by decide) (by decide)

/-- Claim C7: the leaderboard rows are sorted by `totalScore` in
non-increasing order, the `rank` of the `i`-th row is `i + 1` starting at 1,
and on the two-user scenario (A: 10 over 2, B: 15 over 1) user B gets rank 1
and user A rank 2. -/
theorem leaderboard_sorted_and_ranked (docs : List UserDoc) :
    (∀ (i j : Nat) (hi : i < (leaderboardRows docs).length)
        (hj : j < (leaderboardRows docs).length), i ≤ j →
      (leaderboardRows docs)[j].totalScore ≤ (leaderboardRows docs)[i].totalScore) ∧
    (∀ (i : Nat) (hi : i < (leaderboardRows docs).length),
      (leaderboardRows docs)[i].rank = i + 1) ∧
    leaderboardRows [userA, userB] =
      [{ rank := 1, userId := "B", totalScore := 15, quizzesTaken := 1 },
       { rank := 2, userId := "A", totalScore := 10, quizzesTaken := 2 }] := by
  have hlen : ∀ k : Nat, k < (leaderboardRows docs).length →
      k < (sortRows (aggregateScores docs)).length := by
    intro k hk
    unfold leaderboardRows at hk
    rwa [Lemmas.length_addRanks] at hk
  refine ⟨?_, ?_, by decide⟩
  · intro i j hi hj hij
    have hgi := Lemmas.addRanks_getElem 0 (sortRows (aggregateScores docs)) i
      (hlen i hi) (by unfold leaderboardRows at hi; exact hi)
    have hgj := Lemmas.addRanks_getElem 0 (sortRows (aggregateScores docs)) j
      (hlen j hj) (by unfold leaderboardRows at hj; exact hj)
    unfold leaderboardRows
    rw [hgi, hgj]
    rcases Nat.lt_or_ge i j with hlt | hge
    · have hpair := (List.pairwise_iff_getElem.mp
        (Lemmas.sorted_sortRows (aggregateScores docs))) i j
        (hlen i hi) (hlen j hj) hlt
      exact hpair
    · have : i = j := Nat.le_antisymm hij hge
      subst this
      exact Nat.le_refl _
  · intro i hi
    have hgi := Lemmas.addRanks_getElem 0 (sortRows (aggregateScores docs)) i
      (hlen i hi) (by unfold leaderboardRows at hi; exact hi)
    unfold leaderboardRows
    rw [hgi]
    simp

/-- Witness for C7 at a concrete input: on the two-user scenario store, the
second row's totalScore does not exceed the first row's, and the first row
has rank 1. -/
theorem leaderboard_sorted_and_ranked_witness :
    ((leaderboardRows [userA, userB]).get ⟨1, by decide⟩).totalScore ≤
      ((leaderboardRows [userA, userB]).get ⟨0, by decide⟩).totalScore ∧
    ((leaderboardRows [userA, userB]).get ⟨0, by decide⟩).rank = 1 := by
  have h := leaderboard_sorted_and_ranked [userA, userB]
  exact ⟨h.1 0 1 (by decide) (by decide) (by decide), h.2.1 0 (by decide)⟩

/-- Counterexample for C8 as stated: with one user document whose history is
empty there are zero users with any history, yet the handler responds 200
with an empty array, not 404 `{message:"No users found"}`. -/
theorem leaderboard_users_without_history_not_404 :
    getQuizLeaderboard [{ id := "u1", quizzesTaken := [] }] =
      LeaderboardResponse.ok [] ∧
    getQuizLeaderboard [{ id := "u1", quizzesTaken := [] }] ≠
      LeaderboardResponse.notFound "No users found" := by
  decide

/-- Claim C8 (amended): when no user has any history the leaderboard
computation yields an empty row sequence without error; the endpoint
responds 404 `{message:"No users found"}` exactly when the users collection
itself is empty, and responds 200 with an empty array when user documents
exist but none has history. -/
theorem leaderboard_empty_behavior (docs : List UserDoc)
    (h : ∀ d ∈ docs, d.quizzesTaken = []) :
    leaderboardRows docs = [] ∧
    (docs = [] →
      getQuizLeaderboard docs = LeaderboardResponse.notFound "No users found") ∧
    (docs ≠ [] → getQuizLeaderboard docs = LeaderboardResponse.ok []) := by
  have hrows : leaderboardRows docs = [] := by
    unfold leaderboardRows aggregateScores
    rw [Lemmas.foldl_no_history docs [] h]
    rfl
  refine ⟨hrows, fun he => ?_, fun hne => ?_⟩
  · rw [he]
    rfl
  · unfold getQuizLeaderboard
    rw [if_neg (by simpa using hne), hrows]

/-- Witness for the amended C8 at a concrete input. -/
theorem leaderboard_empty_behavior_witness :
    getQuizLeaderboard [{ id := "u1", quizzesTaken := ([] : List UserHistoryEntry) }] =
      LeaderboardResponse.ok [] :=
  (leaderboard_empty_behavior [{ id := "u1", quizzesTaken := [] }]
    (by decide)).2.2 (by decide)

end BinDetective
